import Mathlib

/-!
# Wallet system — shallow embedding

A shallow embedding of the wallet ledger core of this repository
(`src/lib/database.ts`, `src/lib/trpc.ts`), together with proofs of the
claims of the specification about it.

Modelling conventions:
* JavaScript `number` values are idealized as exact rationals (`ℚ`), with a
  separate `JSNum` type whose extra constructors model `NaN` and the two
  infinities (the only non-finite values `validateAmount` distinguishes).
* The SQLite store is a pure record `DB` (a `users` table, a `transactions`
  table, and a logical clock supplying strictly increasing `created_at`
  values).  `SELECT ... WHERE x = ?` becomes `List.find?`, `UPDATE` becomes a
  conditional `List.map`, and the `BEGIN/UPDATE/INSERT/COMMIT` batch of the
  mutation endpoints becomes `commitBatch`, which checks the schema
  constraints (`UNIQUE` on `transactions.id`/`idempotency_key`, the `CHECK`
  clauses) and either applies both writes or leaves the state untouched
  (rollback).
* A thrown `TRPCError` (or a raw driver error) becomes an `Except Err` value.
-/

namespace Wallet

/-- A JavaScript `number` as seen by `validateAmount`: either a finite value
(idealized as an exact rational) or one of the non-finite values `NaN`,
`Infinity`, `-Infinity`. -/
inductive JSNum where
  | nan : JSNum
  | inf : JSNum
  | negInf : JSNum
  | num : ℚ → JSNum
deriving DecidableEq

/-- The finite value of a `JSNum` (junk value `0` for the non-finite cases,
which every operation rejects during validation before using the value). -/
def JSNum.val : JSNum → ℚ
  | .num q => q
  | _ => 0

theorem JSNum.val_num (q : ℚ) : (JSNum.num q).val = q := rfl

/-- Mirrors `CURRENCY_PRECISION = 100` from `src/lib/database.ts`. -/
def CURRENCY_PRECISION : ℚ := 100

/-- Mirrors `MIN_AMOUNT = 0.01` from `src/lib/database.ts`. -/
def MIN_AMOUNT : ℚ := 1 / 100

/-- Mirrors `MAX_AMOUNT = 999999.99` from `src/lib/database.ts`. -/
def MAX_AMOUNT : ℚ := 99999999 / 100

/-- JavaScript `Math.round`: nearest integer, halves rounding toward `+∞`. -/
def mathRound (q : ℚ) : ℤ := ⌊q + 1 / 2⌋

/-- Mirrors `formatCurrency` from `src/lib/database.ts`:
`Math.round(amount * CURRENCY_PRECISION) / CURRENCY_PRECISION`. -/
def formatCurrency (amount : ℚ) : ℚ :=
  (mathRound (amount * CURRENCY_PRECISION) : ℚ) / CURRENCY_PRECISION

/-- Mirrors `validateAmount` from `src/lib/database.ts`.  The source checks, in order:
the typeof / Number.isFinite / isNaN guard
(here: the non-`num` constructors), `amount <= 0`, the range
`amount < MIN_AMOUNT || amount > MAX_AMOUNT`, and finally that the decimal
rendering has at most 2 fractional digits.  For an exact rational the last
condition is `(amount * 100).den = 1` (the value is a whole number of
cents). -/
def validateAmount (amount : JSNum) : Bool :=
  match amount with
  | .num q =>
    if q ≤ 0 then false
    else if q < MIN_AMOUNT ∨ MAX_AMOUNT < q then false
    else if (q * 100).den ≠ 1 then false
    else true
  | _ => false

/-- A row of the `users` table (`src/lib/database.ts`, `createTables`). -/
structure User where
  id : String
  email : String
  name : String
  balance : ℚ
  created_at : Nat
deriving DecidableEq

/-- A row of the `transactions` table (`src/lib/database.ts`, `createTables`). -/
structure Transaction where
  id : String
  user_id : String
  type : String
  amount : ℚ
  balance_after : ℚ
  idempotency_key : String
  created_at : Nat
deriving DecidableEq

/-- The SQLite database state: the two tables plus a logical clock used to
assign strictly increasing `created_at` timestamps. -/
structure DB where
  users : List User
  transactions : List Transaction
  clock : Nat
deriving DecidableEq

/-- The freshly initialized database (empty tables). -/
def emptyDB : DB := ⟨[], [], 0⟩

/-- Mirrors `statements.getUserById`: `SELECT * FROM users WHERE id = ?`. -/
def getUserById (db : DB) (userId : String) : Option User :=
  db.users.find? (fun u => u.id == userId)

/-- Mirrors `statements.getUserByEmail`: `SELECT * FROM users WHERE email = ?`. -/
def getUserByEmail (db : DB) (email : String) : Option User :=
  db.users.find? (fun u => u.email == email)

/-- Mirrors `statements.getTransactionByIdempotencyKey`:
`SELECT * FROM transactions WHERE idempotency_key = ?`. -/
def getTransactionByIdempotencyKey (db : DB) (key : String) : Option Transaction :=
  db.transactions.find? (fun t => t.idempotency_key == key)

/-- Mirrors `statements.updateBalance`: `UPDATE users SET balance = ? WHERE id = ?`. -/
def updateBalance (users : List User) (userId : String) (newBalance : ℚ) : List User :=
  users.map (fun u => if u.id == userId then { u with balance := newBalance } else u)

/-- Number of rows of the `transactions` table carrying a given idempotency
key. -/
def countKey (db : DB) (key : String) : Nat :=
  (db.transactions.filter (fun t => t.idempotency_key == key)).length

/-- The caller-facing failures of the tRPC endpoints in `src/lib/trpc.ts`,
together with the two internal failure signals:

* `invalidAmount` — `BAD_REQUEST` "Invalid amount..." (`topUp`/`charge` step 1);
* `userNotFound` — `NOT_FOUND` "User not found";
* `insufficientFunds` — `BAD_REQUEST` "Insufficient funds" (`charge`);
* `negativeBalance` — `BAD_REQUEST` "Operation would result in negative
  balance" (`charge`, defensive guard);
* `emailConflict` — `CONFLICT` "User with this email already exists"
  (`createAccount`);
* `uniqueConstraint` — a raw driver error whose message contains
  "UNIQUE constraint failed" (violation of the `UNIQUE` constraints on
  `transactions.id` / `transactions.idempotency_key` / `users.email`);
* `checkConstraint` — a raw driver error from a schema `CHECK`
  constraints (re-thrown unhandled by the engine);
* `typeError` — the JavaScript `TypeError` thrown when the code dereferences
  `rows[0]` of an empty result set (e.g. `convertToUser(userResult.rows[0])`
  in the early-duplicate path when the account row is absent). -/
inductive Err where
  | invalidAmount : Err
  | userNotFound : Err
  | insufficientFunds : Err
  | negativeBalance : Err
  | emailConflict : Err
  | uniqueConstraint : Err
  | checkConstraint : Err
  | typeError : Err
deriving DecidableEq

/-- Mirrors `TransactionResponse` from `src/lib/types.ts` as used by
`topUp`/`charge` in `src/lib/trpc.ts`. -/
structure TransactionResponse where
  success : Bool
  transactionId : String
  newBalance : ℚ
  amount : ℚ
  duplicate : Bool
deriving DecidableEq

/-- Mirrors `UserResponse` from `src/lib/types.ts` as used by `createAccount`. -/
structure UserResponse where
  id : String
  email : String
  name : String
  balance : ℚ
deriving DecidableEq

/-- The `BEGIN / UPDATE users / INSERT INTO transactions / COMMIT` batch of
`topUp` and `charge` (`src/lib/trpc.ts`), including the schema constraints the
store enforces (`src/lib/database.ts`, `createTables`): the `CHECK
(balance >= 0)` on the updated user row, the `CHECK` clauses on the inserted
transaction row, and the `UNIQUE` constraints on `transactions.id` (primary
key) and `transactions.idempotency_key`.  On any constraint violation the
transaction is rolled back: no partial effect, the database is returned
unchanged via the `Except.error`.  The `created_at` of the inserted row is the
current logical clock. -/
def commitBatch (db : DB) (userId : String) (newBalance : ℚ) (t : Transaction) :
    Except Err DB :=
  if (db.users.any fun u => u.id == userId) ∧ newBalance < 0 then
    .error .checkConstraint
  else if ¬ (t.type = "topup" ∨ t.type = "charge") ∨ t.amount ≤ 0 ∨ t.balance_after < 0 then
    .error .checkConstraint
  else if db.transactions.any (fun t0 => t0.id == t.id || t0.idempotency_key == t.idempotency_key) then
    .error .uniqueConstraint
  else
    .ok { db with
      users := updateBalance db.users userId newBalance,
      transactions := db.transactions ++ [{ t with created_at := db.clock }],
      clock := db.clock + 1 }

/-- The `catch` branch of `topUp`/`charge` for a `UNIQUE constraint failed`
error (`src/lib/trpc.ts`): re-fetch the now-existing transaction by key and
the current user row, and answer `duplicate = true` with the `transactionId`
and `amount` of the other request.  Both `rows[0]` dereferences are unchecked in
the source; an empty result set there raises a `TypeError`. -/
def raceRecover (db : DB) (userId idempotencyKey : String) :
    Except Err TransactionResponse :=
  match getTransactionByIdempotencyKey db idempotencyKey with
  | none => .error .typeError
  | some existingTransaction =>
    match getUserById db userId with
    | none => .error .typeError
    | some updatedUser =>
      .ok ⟨true, existingTransaction.id, formatCurrency updatedUser.balance,
        formatCurrency existingTransaction.amount, true⟩

/-- The shared commit step of `topUp` and `charge` (`src/lib/trpc.ts`): run
the batch; on success return the first-application response; on a
`UNIQUE constraint failed` error run the race-recovery path against the
unchanged database; re-throw any other error. -/
def commitWithRecovery (db : DB) (userId idempotencyKey : String) (newBalance : ℚ)
    (t : Transaction) (okResp : TransactionResponse) :
    (Except Err TransactionResponse) × DB :=
  match commitBatch db userId newBalance t with
  | .ok db2 => (.ok okResp, db2)
  | .error .uniqueConstraint => (raceRecover db userId idempotencyKey, db)
  | .error e => (.error e, db)

/-- Mirrors `topUp` from `src/lib/trpc.ts` (the mutation body; the zod input layer
re-checks the same amount conditions and non-emptiness of the strings).
`txId` stands for the `generateId()` call. -/
def topUp (db : DB) (userId : String) (amount : JSNum) (idempotencyKey txId : String) :
    (Except Err TransactionResponse) × DB :=
  if validateAmount amount then
    let formattedAmount := formatCurrency amount.val
    match getTransactionByIdempotencyKey db idempotencyKey with
    | some existingTransaction =>
      match getUserById db userId with
      | none => (.error .typeError, db)
      | some user =>
        (.ok ⟨true, existingTransaction.id, formatCurrency user.balance,
          formatCurrency existingTransaction.amount, true⟩, db)
    | none =>
      match getUserById db userId with
      | none => (.error .userNotFound, db)
      | some user =>
        let currentBalance := formatCurrency user.balance
        let newBalance := formatCurrency (currentBalance + formattedAmount)
        commitWithRecovery db userId idempotencyKey newBalance
          ⟨txId, userId, "topup", formattedAmount, newBalance, idempotencyKey, 0⟩
          ⟨true, txId, newBalance, formattedAmount, false⟩
  else (.error .invalidAmount, db)

/-- Mirrors `charge` from `src/lib/trpc.ts` (the mutation body).  Identical to
`topUp` except for the insufficient-funds check, the subtraction, and the
defensive negative-balance guard. -/
def charge (db : DB) (userId : String) (amount : JSNum) (idempotencyKey txId : String) :
    (Except Err TransactionResponse) × DB :=
  if validateAmount amount then
    let formattedAmount := formatCurrency amount.val
    match getTransactionByIdempotencyKey db idempotencyKey with
    | some existingTransaction =>
      match getUserById db userId with
      | none => (.error .typeError, db)
      | some user =>
        (.ok ⟨true, existingTransaction.id, formatCurrency user.balance,
          formatCurrency existingTransaction.amount, true⟩, db)
    | none =>
      match getUserById db userId with
      | none => (.error .userNotFound, db)
      | some user =>
        let currentBalance := formatCurrency user.balance
        if currentBalance < formattedAmount then (.error .insufficientFunds, db)
        else
          let newBalance := formatCurrency (currentBalance - formattedAmount)
          if newBalance < 0 then (.error .negativeBalance, db)
          else
            commitWithRecovery db userId idempotencyKey newBalance
              ⟨txId, userId, "charge", formattedAmount, newBalance, idempotencyKey, 0⟩
              ⟨true, txId, newBalance, formattedAmount, false⟩
  else (.error .invalidAmount, db)

/-- The zod email normalization of `createAccount`
(`.trim().toLowerCase()`). -/
def normalizeEmail (email : String) : String := email.trim.toLower

/-- Mirrors `createAccount` from `src/lib/trpc.ts` (the mutation body; the zod
format/length validation of `email` and `name` is not claim-relevant and is
omitted, their `.trim()`/`.toLowerCase()` transforms are kept).  `userId`
stands for the `generateId()` call.  The pre-check on
`getUserByEmail` and the `catch` of a `UNIQUE constraint failed` error both
map to `CONFLICT`; the new row is inserted with `balance = 0.00` and re-read
before answering. -/
def createAccount (db : DB) (email name userId : String) :
    (Except Err UserResponse) × DB :=
  let email := normalizeEmail email
  let name := name.trim
  match getUserByEmail db email with
  | some _ => (.error .emailConflict, db)
  | none =>
    if db.users.any (fun u => u.email == email || u.id == userId) then
      (.error .emailConflict, db)
    else
      let db2 : DB := { db with
        users := db.users ++ [⟨userId, email, name, 0, db.clock⟩],
        clock := db.clock + 1 }
      match getUserById db2 userId with
      | none => (.error .typeError, db2)
      | some newUser =>
        (.ok ⟨newUser.id, newUser.email, newUser.name, formatCurrency newUser.balance⟩, db2)

/-- A row of the `getUserTransactions` response (`TransactionHistoryItem` in
`src/lib/types.ts`). -/
structure TransactionHistoryItem where
  id : String
  type : String
  amount : ℚ
  balanceAfter : ℚ
  createdAt : Nat
  idempotencyKey : String
deriving DecidableEq

/-- The per-row mapping of `getUserTransactions` (`src/lib/trpc.ts`). -/
def toHistoryItem (t : Transaction) : TransactionHistoryItem :=
  ⟨t.id, t.type, formatCurrency t.amount, formatCurrency t.balance_after,
    t.created_at, t.idempotency_key⟩

/-- The `ORDER BY created_at DESC` relation of
`statements.getUserTransactions`. -/
def newestFirst (a b : Transaction) : Prop := b.created_at ≤ a.created_at

instance : DecidableRel newestFirst := fun a b => Nat.decLe b.created_at a.created_at

instance : IsTotal Transaction newestFirst :=
  ⟨fun a b => le_total b.created_at a.created_at⟩

instance : IsTrans Transaction newestFirst :=
  ⟨fun _ _ _ h1 h2 => le_trans h2 h1⟩

/-- Mirrors `statements.getUserTransactions`:
`SELECT * FROM transactions WHERE user_id = ? ORDER BY created_at DESC`. -/
def getUserTransactionsStmt (db : DB) (userId : String) : List Transaction :=
  List.insertionSort newestFirst (db.transactions.filter fun t => t.user_id == userId)

/-- Mirrors `getUserTransactions` from `src/lib/trpc.ts`: `NOT_FOUND` when the user
row is absent, otherwise the transactions of that user, newest first, mapped through
`toHistoryItem`. -/
def getUserTransactions (db : DB) (userId : String) :
    Except Err (List TransactionHistoryItem) :=
  match getUserById db userId with
  | none => .error .userNotFound
  | some _ => .ok ((getUserTransactionsStmt db userId).map toHistoryItem)

/-! ## Sequential runs

A sequential history of API calls, used to state the solvency invariant
(claim about all reachable states of the store under the engine operations). -/

/-- One API call with its inputs (the `generateId()` outputs are part of the
input here, since the model is deterministic). -/
inductive SeqOp where
  | create (email name userId : String) : SeqOp
  | topup (userId : String) (amount : JSNum) (idempotencyKey txId : String) : SeqOp
  | charge (userId : String) (amount : JSNum) (idempotencyKey txId : String) : SeqOp

/-- The store state after one API call (responses discarded). -/
def applySeqOp (db : DB) : SeqOp → DB
  | .create email name userId => (createAccount db email name userId).2
  | .topup userId amount idempotencyKey txId => (topUp db userId amount idempotencyKey txId).2
  | .charge userId amount idempotencyKey txId => (charge db userId amount idempotencyKey txId).2

/-- The store state after a sequence of API calls. -/
def runOps (db : DB) (ops : List SeqOp) : DB := ops.foldl applySeqOp db

/-! ## Concurrent top-ups

A small-step interleaving semantics for `N` simultaneous `topUp` calls that
share the same `(userId, amount, idempotencyKey)` (each with its own
`generateId()` output).  Each call is in one of the phases below; a step picks
one call and lets it perform its next storage access.  Only the commit batch
mutates the store; all atomicity lives in `commitBatch`, mirroring the code,
where steps 1–5 of the protocol are *not* atomic with the commit. -/

deriving instance DecidableEq for Except

/-- The control point of one in-flight `topUp` call:

* `start` — before the idempotency probe;
* `foundDup t` — the probe returned transaction `t`; about to re-read the
  user row and answer `duplicate = true`;
* `probed` — the probe found no transaction; about to load the user row;
* `gotUser bal` — read the user row with balance `bal`; about to commit;
* `recovering` — the commit failed with a `UNIQUE constraint failed` error;
  about to run the race-recovery re-fetches;
* `done r` — the call returned `r`. -/
inductive Phase where
  | start : Phase
  | foundDup : Transaction → Phase
  | probed : Phase
  | gotUser : ℚ → Phase
  | recovering : Phase
  | done : Except Err TransactionResponse → Phase
deriving DecidableEq

/-- Whether an in-flight call has returned. -/
def Phase.isDone : Phase → Bool
  | .done _ => true
  | _ => false

/-- One storage access of a single in-flight `topUp userId amount
idempotencyKey` call whose `generateId()` output is `txId`: the next phase
and the (possibly unchanged) store.  `none` when the call has already
returned. -/
def topUpStep (userId idempotencyKey : String) (amount : ℚ) (txId : String)
    (db : DB) : Phase → Option (DB × Phase)
  | .start =>
    match getTransactionByIdempotencyKey db idempotencyKey with
    | some existingTransaction => some (db, .foundDup existingTransaction)
    | none => some (db, .probed)
  | .foundDup existingTransaction =>
    match getUserById db userId with
    | none => some (db, .done (.error .typeError))
    | some user =>
      some (db, .done (.ok ⟨true, existingTransaction.id, formatCurrency user.balance,
        formatCurrency existingTransaction.amount, true⟩))
  | .probed =>
    match getUserById db userId with
    | none => some (db, .done (.error .userNotFound))
    | some user => some (db, .gotUser user.balance)
  | .gotUser bal =>
    let formattedAmount := formatCurrency amount
    let currentBalance := formatCurrency bal
    let newBalance := formatCurrency (currentBalance + formattedAmount)
    match commitBatch db userId newBalance
        ⟨txId, userId, "topup", formattedAmount, newBalance, idempotencyKey, 0⟩ with
    | .ok db2 => some (db2, .done (.ok ⟨true, txId, newBalance, formattedAmount, false⟩))
    | .error .uniqueConstraint => some (db, .recovering)
    | .error e => some (db, .done (.error e))
  | .recovering => some (db, .done (raceRecover db userId idempotencyKey))
  | .done _ => none

/-- A configuration of the concurrent system: the shared store plus, for each
in-flight call, its `generateId()` output and its phase. -/
structure CConfig where
  db : DB
  ops : List (String × Phase)
deriving DecidableEq

/-- The scheduler relation: some in-flight call performs its next storage
access. -/
def CStep (userId : String) (amount : ℚ) (idempotencyKey : String)
    (cfg cfg2 : CConfig) : Prop :=
  ∃ i, ∃ h : i < cfg.ops.length, ∃ db2 ph2,
    topUpStep userId idempotencyKey amount (cfg.ops.get ⟨i, h⟩).1 cfg.db
        (cfg.ops.get ⟨i, h⟩).2 = some (db2, ph2) ∧
    cfg2 = ⟨db2, cfg.ops.set i ((cfg.ops.get ⟨i, h⟩).1, ph2)⟩

/-- The initial configuration: store `db`, every call at `start`, with
`generateId()` outputs `txIds`. -/
def initCConfig (db : DB) (txIds : List String) : CConfig :=
  ⟨db, txIds.map (fun tid => (tid, Phase.start))⟩

/-- All configurations reachable by interleaving the calls. -/
def CReachable (userId : String) (amount : ℚ) (idempotencyKey : String) :
    CConfig → CConfig → Prop :=
  Relation.ReflTransGen (CStep userId amount idempotencyKey)

/-! ## Arithmetic facts about `formatCurrency` -/

theorem floor_half : (⌊(1 / 2 : ℚ)⌋ : ℤ) = 0 := by
  rw [Int.floor_eq_iff]
  norm_num

theorem mathRound_intCast (n : ℤ) : mathRound (n : ℚ) = n := by
  unfold mathRound
  rw [Int.floor_int_add, floor_half, add_zero]

theorem formatCurrency_eq_self {q : ℚ} (h : (q * 100).den = 1) : formatCurrency q = q := by
  have h1 : ((q * 100).num : ℚ) = q * 100 := (Rat.den_eq_one_iff _).mp h
  unfold formatCurrency CURRENCY_PRECISION
  rw [show q * (100 : ℚ) = ((q * 100).num : ℚ) from h1.symm, mathRound_intCast, h1]
  exact mul_div_cancel_right₀ q (by norm_num)

theorem den_formatCurrency_mul (q : ℚ) : (formatCurrency q * 100).den = 1 := by
  unfold formatCurrency CURRENCY_PRECISION
  rw [div_mul_cancel₀ _ (by norm_num : (100 : ℚ) ≠ 0)]
  exact Rat.den_intCast _

theorem formatCurrency_idem (q : ℚ) :
    formatCurrency (formatCurrency q) = formatCurrency q :=
  formatCurrency_eq_self (den_formatCurrency_mul q)

theorem formatCurrency_nonneg {q : ℚ} (h : 0 ≤ q) : 0 ≤ formatCurrency q := by
  unfold formatCurrency CURRENCY_PRECISION mathRound
  apply div_nonneg _ (by norm_num)
  have : (0 : ℤ) ≤ ⌊q * 100 + 1 / 2⌋ := Int.le_floor.mpr (by push_cast; nlinarith)
  exact_mod_cast this

theorem validateAmount_spec {a : JSNum} (h : validateAmount a = true) :
    MIN_AMOUNT ≤ a.val ∧ a.val ≤ MAX_AMOUNT ∧ formatCurrency a.val = a.val := by
  cases a with
  | num q =>
    simp only [validateAmount] at h
    split_ifs at h with h1 h2 h3
    push_neg at h2
    exact ⟨h2.1, h2.2, formatCurrency_eq_self (by simpa using h3)⟩
  | nan => simp [validateAmount] at h
  | inf => simp [validateAmount] at h
  | negInf => simp [validateAmount] at h

theorem validateAmount_pos {a : JSNum} (h : validateAmount a = true) :
    0 < formatCurrency a.val := by
  obtain ⟨h1, _, h3⟩ := validateAmount_spec h
  rw [h3]
  calc (0 : ℚ) < MIN_AMOUNT := by unfold MIN_AMOUNT; norm_num
    _ ≤ a.val := h1

/-! ## Store query facts -/

theorem find?_updateBalance (users : List User) (userId : String) (nb : ℚ) :
    (updateBalance users userId nb).find? (fun u => u.id == userId) =
      (users.find? (fun u => u.id == userId)).map (fun u => { u with balance := nb }) := by
  induction users with
  | nil => rfl
  | cons u us ih =>
    unfold updateBalance at ih ⊢
    simp only [List.map_cons]
    by_cases hm : (u.id == userId) = true
    · rw [if_pos hm]
      simp [List.find?, hm]
    · rw [if_neg hm]
      simp only [Bool.not_eq_true] at hm
      simp only [List.find?, hm]
      exact ih

theorem getUserById_commitBatch {db db2 : DB} {userId : String} {nb : ℚ} {t : Transaction}
    (hc : commitBatch db userId nb t = .ok db2) {u : User}
    (hu : getUserById db userId = some u) :
    getUserById db2 userId = some { u with balance := nb } := by
  unfold commitBatch at hc
  split_ifs at hc
  simp only [Except.ok.injEq] at hc
  subst hc
  unfold getUserById at hu ⊢
  rw [show ({ db with
      users := updateBalance db.users userId nb,
      transactions := db.transactions ++ [{ t with created_at := db.clock }],
      clock := db.clock + 1 } : DB).users = updateBalance db.users userId nb from rfl,
    find?_updateBalance, hu]
  rfl

theorem commitBatch_unchanged_transactions {db db2 : DB} {userId : String} {nb : ℚ}
    {t : Transaction} (hc : commitBatch db userId nb t = .ok db2) :
    db2.transactions = db.transactions ++ [{ t with created_at := db.clock }] := by
  unfold commitBatch at hc
  split_ifs at hc
  simp only [Except.ok.injEq] at hc
  subst hc
  rfl

theorem commitBatch_error_cases {db : DB} {userId : String} {nb : ℚ} {t : Transaction}
    {e : Err} (hc : commitBatch db userId nb t = .error e) :
    e = .checkConstraint ∨ e = .uniqueConstraint := by
  unfold commitBatch at hc
  split_ifs at hc <;> simp_all

theorem raceRecover_cases {db : DB} {userId idempotencyKey : String} :
    (∃ r, raceRecover db userId idempotencyKey = .ok r ∧ r.duplicate = true) ∨
      raceRecover db userId idempotencyKey = .error .typeError := by
  unfold raceRecover
  rcases getTransactionByIdempotencyKey db idempotencyKey with _ | t
  · exact .inr rfl
  · rcases getUserById db userId with _ | u
    · exact .inr rfl
    · exact .inl ⟨_, rfl, rfl⟩

theorem commitWithRecovery_fst_cases (db : DB) (userId idempotencyKey : String)
    (nb : ℚ) (t : Transaction) (okResp : TransactionResponse) :
    (commitWithRecovery db userId idempotencyKey nb t okResp).1 = .ok okResp ∨
    (∃ r, (commitWithRecovery db userId idempotencyKey nb t okResp).1 = .ok r ∧
      r.duplicate = true) ∨
    (commitWithRecovery db userId idempotencyKey nb t okResp).1 = .error .typeError ∨
    (commitWithRecovery db userId idempotencyKey nb t okResp).1 = .error .checkConstraint := by
  unfold commitWithRecovery
  rcases hc : commitBatch db userId nb t with db2 | e
  case error =>
    rcases commitBatch_error_cases hc with rfl | rfl
    · exact .inr (.inr (.inr rfl))
    · rcases @raceRecover_cases db userId idempotencyKey with ⟨r, hr, hdup⟩ | hr
      · exact .inr (.inl ⟨r, by simp [hr], hdup⟩)
      · exact .inr (.inr (.inl (by simp [hr])))
  case ok => exact .inl rfl

/-- Which results of `topUp`/`charge` count as the raw
`UNIQUE constraint failed` driver error escaping to the caller. -/
def isUniqueConstraintError : Except Err TransactionResponse → Bool
  | .error .uniqueConstraint => true
  | _ => false

/-- Which results of `charge` count as the defensive negative-balance
rejection. -/
def isNegativeBalanceError : Except Err TransactionResponse → Bool
  | .error .negativeBalance => true
  | _ => false

theorem commitWithRecovery_not_uc (db : DB) (userId idempotencyKey : String)
    (nb : ℚ) (t : Transaction) (okResp : TransactionResponse) :
    isUniqueConstraintError (commitWithRecovery db userId idempotencyKey nb t okResp).1 = false ∧
    isNegativeBalanceError (commitWithRecovery db userId idempotencyKey nb t okResp).1 = false := by
  rcases commitWithRecovery_fst_cases db userId idempotencyKey nb t okResp with
    h | ⟨r, h, _⟩ | h | h <;> rw [h] <;> exact ⟨rfl, rfl⟩

theorem topUpStep_done_not_uc {userId idempotencyKey : String} {amount : ℚ} {txId : String}
    {db db2 : DB} {ph : Phase} {r : Except Err TransactionResponse}
    (h : topUpStep userId idempotencyKey amount txId db ph = some (db2, .done r)) :
    isUniqueConstraintError r = false := by
  cases ph with
  | start =>
    rcases hk : getTransactionByIdempotencyKey db idempotencyKey with _ | t <;>
      simp only [topUpStep, hk, Option.some.injEq, Prod.mk.injEq] at h <;>
      exact absurd h.2 (by simp)
  | foundDup t =>
    rcases hu : getUserById db userId with _ | u <;>
      simp only [topUpStep, hu, Option.some.injEq, Prod.mk.injEq, Phase.done.injEq] at h <;>
      rw [← h.2] <;> rfl
  | probed =>
    rcases hu : getUserById db userId with _ | u
    · simp only [topUpStep, hu, Option.some.injEq, Prod.mk.injEq, Phase.done.injEq] at h
      rw [← h.2]
      rfl
    · simp only [topUpStep, hu, Option.some.injEq, Prod.mk.injEq] at h
      exact absurd h.2 (by simp)
  | gotUser bal =>
    rcases hc : commitBatch db userId
        (formatCurrency (formatCurrency bal + formatCurrency amount))
        ⟨txId, userId, "topup", formatCurrency amount,
          formatCurrency (formatCurrency bal + formatCurrency amount), idempotencyKey, 0⟩
      with e | db3
    · rcases commitBatch_error_cases hc with rfl | rfl
      · simp only [topUpStep, hc, Option.some.injEq, Prod.mk.injEq, Phase.done.injEq] at h
        rw [← h.2]
        rfl
      · simp only [topUpStep, hc, Option.some.injEq, Prod.mk.injEq] at h
        exact absurd h.2 (by simp)
    · simp only [topUpStep, hc, Option.some.injEq, Prod.mk.injEq, Phase.done.injEq] at h
      rw [← h.2]
      rfl
  | recovering =>
    simp only [topUpStep, Option.some.injEq, Prod.mk.injEq, Phase.done.injEq] at h
    rcases @raceRecover_cases db userId idempotencyKey with ⟨r0, hr0, _⟩ | hr0 <;>
      rw [← h.2, hr0] <;> rfl
  | done r0 => exact absurd h (by simp [topUpStep])

theorem creachable_not_uc {userId : String} {amount : ℚ} {idempotencyKey : String}
    {cfg cfg2 : CConfig}
    (hreach : CReachable userId amount idempotencyKey cfg cfg2)
    (h0 : ∀ p ∈ cfg.ops, ∀ r, p.2 = .done r → isUniqueConstraintError r = false) :
    ∀ p ∈ cfg2.ops, ∀ r, p.2 = .done r → isUniqueConstraintError r = false := by
  induction hreach with
  | refl => exact h0
  | tail hsteps hstep ih =>
    obtain ⟨i, hi, db2, ph2, heq, rfl⟩ := hstep
    intro p hp r hr
    rcases List.mem_or_eq_of_mem_set hp with hp2 | rfl
    · exact ih p hp2 r hr
    · simp only at hr
      subst hr
      exact topUpStep_done_not_uc heq

/-! ## Claim C3 -/

/-- C3: when the commit batch of a credit or debit fails with the
duplicate-idempotency-key constraint violation, the engine does not surface an
error: it re-fetches the existing transaction for that key and the current
account and answers `duplicate = true` with the `transactionId` and amount of the other request (part 1); moreover the raw `UNIQUE constraint
failed` signal is never visible in any caller-facing outcome, neither of a
sequential `topUp`/`charge` call (part 2) nor of any call in any concurrent
interleaving (part 3). -/
theorem C3_race_recovery_consumed :
    (∀ (db : DB) (userId idempotencyKey : String) (nb : ℚ) (t : Transaction)
        (okResp : TransactionResponse) (t0 : Transaction) (u : User),
      commitBatch db userId nb t = .error .uniqueConstraint →
      getTransactionByIdempotencyKey db idempotencyKey = some t0 →
      getUserById db userId = some u →
      commitWithRecovery db userId idempotencyKey nb t okResp =
        (.ok ⟨true, t0.id, formatCurrency u.balance, formatCurrency t0.amount, true⟩, db)) ∧
    (∀ (db : DB) (userId : String) (amount : JSNum) (idempotencyKey txId : String),
      isUniqueConstraintError (topUp db userId amount idempotencyKey txId).1 = false ∧
      isUniqueConstraintError (charge db userId amount idempotencyKey txId).1 = false) ∧
    (∀ (userId : String) (amount : ℚ) (idempotencyKey : String) (db : DB)
        (txIds : List String) (cfg : CConfig),
      CReachable userId amount idempotencyKey (initCConfig db txIds) cfg →
      ∀ p ∈ cfg.ops, ∀ r, p.2 = .done r → isUniqueConstraintError r = false) := by
  refine ⟨?_, ?_, ?_⟩
  · intro db userId idempotencyKey nb t okResp t0 u hc hk hu
    unfold commitWithRecovery
    rw [hc]
    unfold raceRecover
    rw [hk, hu]
  · intro db userId amount idempotencyKey txId
    constructor
    · rcases hv : validateAmount amount with _ | _
      · simp [topUp, hv, isUniqueConstraintError]
      · rcases hk : getTransactionByIdempotencyKey db idempotencyKey with _ | t
        · rcases hu : getUserById db userId with _ | u
          · simp [topUp, hv, hk, hu, isUniqueConstraintError]
          · simp only [topUp, hv, hk, hu, if_true]
            exact (commitWithRecovery_not_uc _ _ _ _ _ _).1
        · rcases hu : getUserById db userId with _ | u <;>
            simp [topUp, hv, hk, hu, isUniqueConstraintError]
    · rcases hv : validateAmount amount with _ | _
      · simp [charge, hv, isUniqueConstraintError]
      · rcases hk : getTransactionByIdempotencyKey db idempotencyKey with _ | t
        · rcases hu : getUserById db userId with _ | u
          · simp [charge, hv, hk, hu, isUniqueConstraintError]
          · by_cases hlt : formatCurrency u.balance < formatCurrency amount.val
            · simp [charge, hv, hk, hu, hlt, isUniqueConstraintError]
            · by_cases hneg : formatCurrency (formatCurrency u.balance -
                  formatCurrency amount.val) < 0
              · simp [charge, hv, hk, hu, hlt, hneg, isUniqueConstraintError]
              · simp only [charge, hv, hk, hu, if_true, if_neg hlt, if_neg hneg]
                exact (commitWithRecovery_not_uc _ _ _ _ _ _).1
        · rcases hu : getUserById db userId with _ | u <;>
            simp [charge, hv, hk, hu, isUniqueConstraintError]
  · intro userId amount idempotencyKey db txIds cfg hreach
    refine creachable_not_uc hreach ?_
    intro p hp r hr
    simp only [initCConfig, List.mem_map] at hp
    obtain ⟨tid, _, rfl⟩ := hp
    exact absurd hr (by simp)

/-- The store of the C3 witness: account `"u1"` (balance 5) whose key `"kk"`
was already consumed by transaction `"tA"` of amount 2. -/
def C3winDB : DB :=
  ⟨[⟨"u1", "a@x.c", "A", 5, 0⟩], [⟨"tA", "u1", "topup", 2, 7, "kk", 0⟩], 1⟩

/-- The competing transaction record of the C3 witness (same key `"kk"`). -/
def C3winT : Transaction := ⟨"tB", "u1", "topup", 3, 8, "kk", 0⟩

/-- Witness for C3: committing a second transaction under the consumed key
`"kk"` fails with the uniqueness violation, and the engine converts it into a
`duplicate = true` success carrying the id and amount of transaction `"tA"`. -/
theorem C3_race_recovery_consumed_witness :
    commitWithRecovery C3winDB "u1" "kk" 8 C3winT ⟨true, "tB", 8, 3, false⟩ =
      (.ok ⟨true, "tA", formatCurrency 5, formatCurrency 2, true⟩, C3winDB) :=
  C3_race_recovery_consumed.1 C3winDB "u1" "kk" 8 C3winT ⟨true, "tB", 8, 3, false⟩
    ⟨"tA", "u1", "topup", 2, 7, "kk", 0⟩ ⟨"u1", "a@x.c", "A", 5, 0⟩
    (by with_unfolding_all decide) (by with_unfolding_all decide)
    (by with_unfolding_all decide)

/-! ## Claim C4 -/

/-- C4: for every input amount that is not a finite number, is `≤ 0`, is below
`0.01`, is above `999999.99`, or has more than 2 decimal digits of precision,
`topUp` and `charge` fail with the invalid-amount error and leave the store
(all accounts and transactions) unchanged. -/
theorem C4_invalid_amount_rejected (db : DB) (userId idempotencyKey txId : String)
    (amount : JSNum)
    (h : amount = .nan ∨ amount = .inf ∨ amount = .negInf ∨
      ∃ q, amount = .num q ∧
        (q ≤ 0 ∨ q < MIN_AMOUNT ∨ MAX_AMOUNT < q ∨ (q * 100).den ≠ 1)) :
    topUp db userId amount idempotencyKey txId = (.error .invalidAmount, db) ∧
    charge db userId amount idempotencyKey txId = (.error .invalidAmount, db) := by
  have hv : validateAmount amount = false := by
    rcases h with rfl | rfl | rfl | ⟨q, rfl, hq⟩
    · rfl
    · rfl
    · rfl
    · simp only [validateAmount]
      split_ifs with h1 h2 h3
      · rfl
      · rfl
      · rfl
      · rcases hq with hq | hq | hq | hq
        · exact absurd hq h1
        · exact absurd (Or.inl hq) h2
        · exact absurd (Or.inr hq) h2
        · exact absurd hq h3
  exact ⟨by simp [topUp, hv], by simp [charge, hv]⟩

/-- Witness for C4 at the example of the spec, `10.005` (more than 2 decimal
digits). -/
theorem C4_invalid_amount_rejected_witness :
    topUp emptyDB "u1" (.num (10005 / 1000)) "k1" "t1" = (.error .invalidAmount, emptyDB) ∧
    charge emptyDB "u1" (.num (10005 / 1000)) "k1" "t1" = (.error .invalidAmount, emptyDB) :=
  C4_invalid_amount_rejected emptyDB "u1" "k1" "t1" (.num (10005 / 1000))
    (.inr (.inr (.inr ⟨10005 / 1000, rfl,
      .inr (.inr (.inr (by with_unfolding_all decide)))⟩)))

/-! ## Claim C9 -/

/-- C9: the defensive negative-balance guard of `charge` is unreachable: for
every input whatsoever, `charge` never returns the "Operation would result in
negative balance" error, because whenever the amount passed validation and the
freshly read balance covers it, `formatCurrency (balance - amount)` is
non-negative. -/
theorem C9_negative_guard_unreachable (db : DB) (userId : String) (amount : JSNum)
    (idempotencyKey txId : String) :
    isNegativeBalanceError (charge db userId amount idempotencyKey txId).1 = false := by
  rcases hv : validateAmount amount with _ | _
  · simp [charge, hv, isNegativeBalanceError]
  · rcases hk : getTransactionByIdempotencyKey db idempotencyKey with _ | t
    · rcases hu : getUserById db userId with _ | u
      · simp [charge, hv, hk, hu, isNegativeBalanceError]
      · by_cases hlt : formatCurrency u.balance < formatCurrency amount.val
        · simp [charge, hv, hk, hu, hlt, isNegativeBalanceError]
        · have hge : 0 ≤ formatCurrency (formatCurrency u.balance - formatCurrency amount.val) :=
            formatCurrency_nonneg (sub_nonneg.mpr (not_lt.mp hlt))
          simp only [charge, hv, hk, hu, if_true, if_neg hlt, if_neg (not_lt.mpr hge)]
          exact (commitWithRecovery_not_uc _ _ _ _ _ _).2
    · rcases hu : getUserById db userId with _ | u
      · simp [charge, hv, hk, hu, isNegativeBalanceError]
      · simp [charge, hv, hk, hu, isNegativeBalanceError]

/-! ## Claim C10 -/

/-- C10: in the early-duplicate path of `topUp` and `charge`, the supplied
account row is dereferenced without an existence check and without checking
that the existing transaction belongs to the supplied account.  Hence (a) when
the idempotency key exists but the account id is absent, both operations throw
the internal `TypeError` (not the not-found error), and (b) when the transaction under the key belongs to a *different* account, both operations answer
`duplicate = true` with the `transactionId` and amount of the other account and the
balance of the supplied account. -/
theorem C10_dup_path_unchecked_account (db : DB) (userId idempotencyKey txId : String)
    (amount : JSNum) (t : Transaction)
    (Hv : validateAmount amount = true)
    (Hk : getTransactionByIdempotencyKey db idempotencyKey = some t) :
    (getUserById db userId = none →
      topUp db userId amount idempotencyKey txId = (.error .typeError, db) ∧
      charge db userId amount idempotencyKey txId = (.error .typeError, db)) ∧
    (∀ u, getUserById db userId = some u → t.user_id ≠ userId →
      topUp db userId amount idempotencyKey txId =
        (.ok ⟨true, t.id, formatCurrency u.balance, formatCurrency t.amount, true⟩, db) ∧
      charge db userId amount idempotencyKey txId =
        (.ok ⟨true, t.id, formatCurrency u.balance, formatCurrency t.amount, true⟩, db)) := by
  constructor
  · intro hu
    exact ⟨by simp [topUp, Hv, Hk, hu], by simp [charge, Hv, Hk, hu]⟩
  · intro u hu _
    exact ⟨by simp [topUp, Hv, Hk, hu], by simp [charge, Hv, Hk, hu]⟩

/-- The store of the C10 witness: account `"u2"` (balance 9) and account
`"u3"` (balance 4), where key `"k"` was consumed by a transaction of `"u2"`. -/
def C10winDB : DB :=
  ⟨[⟨"u2", "b@x.c", "B", 9, 0⟩, ⟨"u3", "c@x.c", "C", 4, 1⟩],
    [⟨"tA", "u2", "topup", 1, 10, "k", 2⟩], 3⟩

/-- The existing transaction of the C10 witness. -/
def C10winT : Transaction := ⟨"tA", "u2", "topup", 1, 10, "k", 2⟩

/-- Witness for C10: a retry of key `"k"` naming the absent account `"ghost"`
raises the internal `TypeError`; a retry naming `"u3"` answers with the transaction of `"u2"`
and the balance of `"u3"`. -/
theorem C10_dup_path_unchecked_account_witness :
    (topUp C10winDB "ghost" (.num 1) "k" "tZ" = (.error .typeError, C10winDB)) ∧
    (topUp C10winDB "u3" (.num 1) "k" "tZ" =
      (.ok ⟨true, "tA", formatCurrency 4, formatCurrency 1, true⟩, C10winDB)) := by
  constructor
  · exact ((C10_dup_path_unchecked_account C10winDB "ghost" "k" "tZ" (.num 1) C10winT
      (by with_unfolding_all decide) (by with_unfolding_all decide)).1
      (by with_unfolding_all decide)).1
  · exact ((C10_dup_path_unchecked_account C10winDB "u3" "k" "tZ" (.num 1) C10winT
      (by with_unfolding_all decide) (by with_unfolding_all decide)).2
      ⟨"u3", "c@x.c", "C", 4, 1⟩ (by with_unfolding_all decide)
      (by with_unfolding_all decide)).1

/-! ## Claim C1 -/

theorem commitBatch_fresh_ok {db : DB} {userId : String} {nb : ℚ} {t : Transaction}
    (hnb : 0 ≤ nb) (htype : t.type = "topup" ∨ t.type = "charge")
    (hamt : 0 < t.amount) (hba : 0 ≤ t.balance_after)
    (hkey : ∀ t0 ∈ db.transactions, ¬ t0.idempotency_key = t.idempotency_key)
    (hid : ∀ t0 ∈ db.transactions, ¬ t0.id = t.id) :
    commitBatch db userId nb t = .ok { db with
      users := updateBalance db.users userId nb,
      transactions := db.transactions ++ [{ t with created_at := db.clock }],
      clock := db.clock + 1 } := by
  unfold commitBatch
  split_ifs with h1 h2 h3
  · exact absurd h1.2 (not_lt.mpr hnb)
  · rcases h2 with h2 | h2 | h2
    · exact absurd htype h2
    · exact absurd h2 (not_le.mpr hamt)
    · exact absurd h2 (not_lt.mpr hba)
  · rw [List.any_eq_true] at h3
    obtain ⟨t0, ht0, hor⟩ := h3
    rcases Bool.or_eq_true_iff.mp hor with hh | hh
    · exact absurd (by simpa using hh) (hid t0 ht0)
    · exact absurd (by simpa using hh) (hkey t0 ht0)
  · rfl

theorem getTransaction_commitBatch {db db2 : DB} {userId : String} {nb : ℚ} {t : Transaction}
    (hc : commitBatch db userId nb t = .ok db2)
    (hk : getTransactionByIdempotencyKey db t.idempotency_key = none) :
    getTransactionByIdempotencyKey db2 t.idempotency_key =
      some { t with created_at := db.clock } := by
  unfold getTransactionByIdempotencyKey at hk ⊢
  rw [commitBatch_unchanged_transactions hc, List.find?_append, hk]
  simp [List.find?]

theorem topUp_dup_result {db : DB} {userId idempotencyKey txId : String} {amount : JSNum}
    {t : Transaction} {u : User}
    (Hv : validateAmount amount = true)
    (Hk : getTransactionByIdempotencyKey db idempotencyKey = some t)
    (Hu : getUserById db userId = some u) :
    topUp db userId amount idempotencyKey txId =
      (.ok ⟨true, t.id, formatCurrency u.balance, formatCurrency t.amount, true⟩, db) := by
  simp [topUp, Hv, Hk, Hu]

theorem charge_dup_result {db : DB} {userId idempotencyKey txId : String} {amount : JSNum}
    {t : Transaction} {u : User}
    (Hv : validateAmount amount = true)
    (Hk : getTransactionByIdempotencyKey db idempotencyKey = some t)
    (Hu : getUserById db userId = some u) :
    charge db userId amount idempotencyKey txId =
      (.ok ⟨true, t.id, formatCurrency u.balance, formatCurrency t.amount, true⟩, db) := by
  simp [charge, Hv, Hk, Hu]

/-- C1: for every account and valid `(accountId, amount, key)` with the key
unconsumed and a fresh transaction id, calling `topUp` (resp. `charge`, given
sufficient funds) twice sequentially with the same idempotency key returns the
same `transactionId` and the same `newBalance` on both calls, with
`duplicate = false` on the first call and `duplicate = true` on the second
(the responses agree on every other field), and the second call performs no
mutation (the store is exactly the state `db1` left by the first call). -/
theorem C1_idempotent_retry (db : DB) (userId idempotencyKey txId1 txId2 : String)
    (amount : JSNum) (u : User)
    (Hv : validateAmount amount = true)
    (Hu : getUserById db userId = some u) (Hb : 0 ≤ u.balance)
    (Hk : getTransactionByIdempotencyKey db idempotencyKey = none)
    (Hid : ∀ t ∈ db.transactions, t.id ≠ txId1) :
    (∃ r1 db1, topUp db userId amount idempotencyKey txId1 = (.ok r1, db1) ∧
      r1.duplicate = false ∧ r1.transactionId = txId1 ∧
      topUp db1 userId amount idempotencyKey txId2 =
        (.ok { r1 with duplicate := true }, db1)) ∧
    (formatCurrency amount.val ≤ formatCurrency u.balance →
      ∃ r1 db1, charge db userId amount idempotencyKey txId1 = (.ok r1, db1) ∧
        r1.duplicate = false ∧ r1.transactionId = txId1 ∧
        charge db1 userId amount idempotencyKey txId2 =
          (.ok { r1 with duplicate := true }, db1)) := by
  have hfa : 0 < formatCurrency amount.val := validateAmount_pos Hv
  have hcb : 0 ≤ formatCurrency u.balance := formatCurrency_nonneg Hb
  have hkey2 : ∀ t0 ∈ db.transactions, ¬ t0.idempotency_key = idempotencyKey := by
    intro t0 h0
    have := List.find?_eq_none.mp Hk t0 h0
    simpa using this
  have hid2 : ∀ t0 ∈ db.transactions, ¬ t0.id = txId1 := fun t0 h0 => Hid t0 h0
  constructor
  · -- topUp
    have hnb : 0 ≤ formatCurrency (formatCurrency u.balance + formatCurrency amount.val) :=
      formatCurrency_nonneg (add_nonneg hcb hfa.le)
    obtain ⟨db1, hcommit⟩ : ∃ db1, commitBatch db userId
        (formatCurrency (formatCurrency u.balance + formatCurrency amount.val))
        ⟨txId1, userId, "topup", formatCurrency amount.val,
          formatCurrency (formatCurrency u.balance + formatCurrency amount.val),
          idempotencyKey, 0⟩ = .ok db1 :=
      ⟨_, commitBatch_fresh_ok hnb (Or.inl rfl) hfa hnb hkey2 hid2⟩
    refine ⟨⟨true, txId1,
      formatCurrency (formatCurrency u.balance + formatCurrency amount.val),
      formatCurrency amount.val, false⟩, db1, ?_, rfl, rfl, ?_⟩
    · simp only [topUp, Hv, Hk, Hu, if_true]
      unfold commitWithRecovery
      rw [hcommit]
    · rw [topUp_dup_result Hv (getTransaction_commitBatch hcommit Hk)
        (getUserById_commitBatch hcommit Hu)]
      simp only [formatCurrency_idem]
  · -- charge
    intro hsuff
    have hnb : 0 ≤ formatCurrency (formatCurrency u.balance - formatCurrency amount.val) :=
      formatCurrency_nonneg (sub_nonneg.mpr hsuff)
    obtain ⟨db1, hcommit⟩ : ∃ db1, commitBatch db userId
        (formatCurrency (formatCurrency u.balance - formatCurrency amount.val))
        ⟨txId1, userId, "charge", formatCurrency amount.val,
          formatCurrency (formatCurrency u.balance - formatCurrency amount.val),
          idempotencyKey, 0⟩ = .ok db1 :=
      ⟨_, commitBatch_fresh_ok hnb (Or.inr rfl) hfa hnb hkey2 hid2⟩
    refine ⟨⟨true, txId1,
      formatCurrency (formatCurrency u.balance - formatCurrency amount.val),
      formatCurrency amount.val, false⟩, db1, ?_, rfl, rfl, ?_⟩
    · simp only [charge, Hv, Hk, Hu, if_true, if_neg (not_lt.mpr hsuff),
        if_neg (not_lt.mpr hnb)]
      unfold commitWithRecovery
      rw [hcommit]
    · rw [charge_dup_result Hv (getTransaction_commitBatch hcommit Hk)
        (getUserById_commitBatch hcommit Hu)]
      simp only [formatCurrency_idem]

/-- The store of the C1 witness: account `"u1"` with balance 5 and no
transactions. -/
def C1winDB : DB := ⟨[⟨"u1", "a@x.c", "A", 5, 0⟩], [], 0⟩

/-- Witness for C1: crediting 2 (key `"k1"`) twice on account `"u1"`, and
debiting 2 (key `"k1"`) twice, each starting from `C1winDB`. -/
theorem C1_idempotent_retry_witness :
    (∃ r1 db1, topUp C1winDB "u1" (.num 2) "k1" "t1" = (.ok r1, db1) ∧
      r1.duplicate = false ∧ r1.transactionId = "t1" ∧
      topUp db1 "u1" (.num 2) "k1" "t2" = (.ok { r1 with duplicate := true }, db1)) ∧
    (∃ r1 db1, charge C1winDB "u1" (.num 2) "k1" "t1" = (.ok r1, db1) ∧
      r1.duplicate = false ∧ r1.transactionId = "t1" ∧
      charge db1 "u1" (.num 2) "k1" "t2" = (.ok { r1 with duplicate := true }, db1)) := by
  have h := C1_idempotent_retry C1winDB "u1" "k1" "t1" "t2" (.num 2)
    ⟨"u1", "a@x.c", "A", 5, 0⟩ (by with_unfolding_all decide)
    (by with_unfolding_all decide) (by with_unfolding_all decide)
    (by with_unfolding_all decide) (by intro t ht; simp [C1winDB] at ht)
  exact ⟨h.1, h.2 (by with_unfolding_all decide)⟩

/-! ## Claim C2 -/

/-- The solvency invariant: every account row has a non-negative balance. -/
def BalancesNonneg (db : DB) : Prop := ∀ u ∈ db.users, 0 ≤ u.balance

theorem balancesNonneg_commitBatch {db db2 : DB} {userId : String} {nb : ℚ} {t : Transaction}
    (hc : commitBatch db userId nb t = .ok db2) (h : BalancesNonneg db) :
    BalancesNonneg db2 := by
  unfold commitBatch at hc
  split_ifs at hc with h1 h2 h3
  simp only [Except.ok.injEq] at hc
  subst hc
  intro u hu
  simp only [updateBalance, List.mem_map] at hu
  obtain ⟨u0, hu0, rfl⟩ := hu
  by_cases hm : (u0.id == userId) = true
  · rw [if_pos hm]
    show 0 ≤ nb
    have hany : (db.users.any fun x => x.id == userId) = true :=
      List.any_eq_true.mpr ⟨u0, hu0, hm⟩
    exact not_lt.mp fun hlt => h1 ⟨hany, hlt⟩
  · rw [if_neg hm]
    exact h u0 hu0

theorem balancesNonneg_commitWithRecovery {db : DB} {userId idempotencyKey : String}
    {nb : ℚ} {t : Transaction} {okResp : TransactionResponse} (h : BalancesNonneg db) :
    BalancesNonneg (commitWithRecovery db userId idempotencyKey nb t okResp).2 := by
  unfold commitWithRecovery
  rcases hc : commitBatch db userId nb t with e | db3
  · cases e <;> simp only [hc] <;> exact h
  · simp only [hc]
    exact balancesNonneg_commitBatch hc h

theorem balancesNonneg_topUp {db : DB} (userId : String) (amount : JSNum)
    (idempotencyKey txId : String) (h : BalancesNonneg db) :
    BalancesNonneg (topUp db userId amount idempotencyKey txId).2 := by
  rcases hv : validateAmount amount with _ | _
  · simpa [topUp, hv] using h
  · rcases hk : getTransactionByIdempotencyKey db idempotencyKey with _ | t
    · rcases hu : getUserById db userId with _ | u
      · simpa [topUp, hv, hk, hu] using h
      · simp only [topUp, hv, hk, hu, if_true]
        exact balancesNonneg_commitWithRecovery h
    · rcases hu : getUserById db userId with _ | u <;>
        simpa [topUp, hv, hk, hu] using h

theorem balancesNonneg_charge {db : DB} (userId : String) (amount : JSNum)
    (idempotencyKey txId : String) (h : BalancesNonneg db) :
    BalancesNonneg (charge db userId amount idempotencyKey txId).2 := by
  rcases hv : validateAmount amount with _ | _
  · simpa [charge, hv] using h
  · rcases hk : getTransactionByIdempotencyKey db idempotencyKey with _ | t
    · rcases hu : getUserById db userId with _ | u
      · simpa [charge, hv, hk, hu] using h
      · by_cases hlt : formatCurrency u.balance < formatCurrency amount.val
        · simpa [charge, hv, hk, hu, hlt] using h
        · by_cases hneg : formatCurrency (formatCurrency u.balance -
              formatCurrency amount.val) < 0
          · simpa [charge, hv, hk, hu, hlt, hneg] using h
          · simp only [charge, hv, hk, hu, if_true, if_neg hlt, if_neg hneg]
            exact balancesNonneg_commitWithRecovery h
    · rcases hu : getUserById db userId with _ | u <;>
        simpa [charge, hv, hk, hu] using h

theorem balancesNonneg_createAccount {db : DB} (email name userId : String)
    (h : BalancesNonneg db) :
    BalancesNonneg (createAccount db email name userId).2 := by
  simp only [createAccount]
  rcases he : getUserByEmail db (normalizeEmail email) with _ | u
  · by_cases hany : (db.users.any fun u =>
        u.email == normalizeEmail email || u.id == userId) = true
    · simpa [hany] using h
    · simp only [if_neg hany]
      have hgoal : BalancesNonneg { db with
          users := db.users ++ [⟨userId, normalizeEmail email, name.trim, 0, db.clock⟩],
          clock := db.clock + 1 } := by
        intro v hv
        rcases List.mem_append.mp hv with hv | hv
        · exact h v hv
        · simp only [List.mem_singleton] at hv
          subst hv
          exact le_refl 0
      rcases getUserById { db with
          users := db.users ++ [⟨userId, normalizeEmail email, name.trim, 0, db.clock⟩],
          clock := db.clock + 1 } userId with _ | u2 <;> exact hgoal
  · simpa using h

theorem balancesNonneg_applySeqOp {db : DB} (op : SeqOp) (h : BalancesNonneg db) :
    BalancesNonneg (applySeqOp db op) := by
  cases op with
  | create email name userId => exact balancesNonneg_createAccount email name userId h
  | topup userId amount idempotencyKey txId =>
    exact balancesNonneg_topUp userId amount idempotencyKey txId h
  | charge userId amount idempotencyKey txId =>
    exact balancesNonneg_charge userId amount idempotencyKey txId h

/-- C2: starting from the freshly initialized store, every sequence of API
calls (account creations, credits, debits, each with arbitrary inputs) leaves
the balance of every account non-negative; and a debit whose amount exceeds the
freshly read current balance fails with the insufficient-funds error and
leaves the store — balance and transaction history — entirely unchanged. -/
theorem C2_solvency :
    (∀ ops : List SeqOp, BalancesNonneg (runOps emptyDB ops)) ∧
    (∀ (db : DB) (userId : String) (amount : JSNum) (idempotencyKey txId : String)
        (u : User),
      validateAmount amount = true →
      getTransactionByIdempotencyKey db idempotencyKey = none →
      getUserById db userId = some u →
      formatCurrency u.balance < formatCurrency amount.val →
      charge db userId amount idempotencyKey txId = (.error .insufficientFunds, db)) := by
  constructor
  · have main : ∀ (ops : List SeqOp) (db : DB), BalancesNonneg db →
        BalancesNonneg (runOps db ops) := by
      intro ops
      induction ops with
      | nil => exact fun db h => h
      | cons op rest ih =>
        intro db h
        rw [runOps, List.foldl_cons]
        exact ih _ (balancesNonneg_applySeqOp op h)
    exact fun ops => main ops emptyDB (by intro u hu; simp [emptyDB] at hu)
  · intro db userId amount idempotencyKey txId u hv hk hu hlt
    simp [charge, hv, hk, hu, hlt]

/-- The store of the C2 witness: account `"u1"` with balance 5 and no
transactions. -/
def C2winDB : DB := ⟨[⟨"u1", "a@x.c", "A", 5, 0⟩], [], 0⟩

/-- Witness for C2: after opening one account its balance is non-negative,
and debiting 7 from a balance of 5 is rejected with the store unchanged. -/
theorem C2_solvency_witness :
    ((0 : ℚ) ≤ (⟨"u1", "e@x.c", "N", 0, 0⟩ : User).balance) ∧
    charge C2winDB "u1" (.num 7) "k9" "t9" = (.error .insufficientFunds, C2winDB) :=
  ⟨C2_solvency.1 [.create "e@x.c" "N" "u1"] ⟨"u1", "e@x.c", "N", 0, 0⟩
      (by with_unfolding_all decide),
    C2_solvency.2 C2winDB "u1" (.num 7) "k9" "t9" ⟨"u1", "a@x.c", "A", 5, 0⟩
      (by with_unfolding_all decide) (by with_unfolding_all decide)
      (by with_unfolding_all decide) (by with_unfolding_all decide)⟩

/-! ## Claim C6 -/

theorem formatCurrency_zero : formatCurrency 0 = 0 := by
  with_unfolding_all decide

/-- C6: two `createAccount` calls whose emails are equal after trimming and
lowercasing: the first (on a store with no account under that normalized email
and a fresh id) succeeds and creates the account row with balance exactly
`0.00`; the second fails with the duplicate-email conflict and creates no
second account row (the store is returned unchanged). -/
theorem C6_duplicate_email (db : DB) (email1 name1 userId1 email2 name2 userId2 : String)
    (hfree : getUserByEmail db (normalizeEmail email1) = none)
    (hid : ∀ u ∈ db.users, u.id ≠ userId1)
    (heq : normalizeEmail email2 = normalizeEmail email1) :
    ∃ r db1, createAccount db email1 name1 userId1 = (.ok r, db1) ∧
      r.balance = 0 ∧
      db1.users = db.users ++ [⟨userId1, normalizeEmail email1, name1.trim, 0, db.clock⟩] ∧
      createAccount db1 email2 name2 userId2 = (.error .emailConflict, db1) := by
  have hmail : ∀ u ∈ db.users, ¬ (u.email == normalizeEmail email1) = true := by
    intro u hu
    exact List.find?_eq_none.mp hfree u hu
  have hany : ¬ (db.users.any fun u =>
      u.email == normalizeEmail email1 || u.id == userId1) = true := by
    rw [List.any_eq_true]
    rintro ⟨u, hu, hor⟩
    rcases Bool.or_eq_true_iff.mp hor with hm | hi
    · exact hmail u hu hm
    · exact hid u hu (by simpa using hi)
  have hfind : List.find? (fun u => u.id == userId1)
      (db.users ++ [⟨userId1, normalizeEmail email1, name1.trim, 0, db.clock⟩]) =
      some ⟨userId1, normalizeEmail email1, name1.trim, 0, db.clock⟩ := by
    rw [List.find?_append, List.find?_eq_none.mpr (fun u hu => by simpa using hid u hu)]
    simp [List.find?]
  refine ⟨⟨userId1, normalizeEmail email1, name1.trim, formatCurrency 0⟩,
    { db with
      users := db.users ++ [⟨userId1, normalizeEmail email1, name1.trim, 0, db.clock⟩],
      clock := db.clock + 1 }, ?_, ?_, ?_, ?_⟩
  · simp only [createAccount, hfree, if_neg hany]
    rw [show getUserById { db with
        users := db.users ++ [⟨userId1, normalizeEmail email1, name1.trim, 0, db.clock⟩],
        clock := db.clock + 1 } userId1 =
      some ⟨userId1, normalizeEmail email1, name1.trim, 0, db.clock⟩ from hfind]
  · exact formatCurrency_zero
  · rfl
  · have hfound : getUserByEmail { db with
        users := db.users ++ [⟨userId1, normalizeEmail email1, name1.trim, 0, db.clock⟩],
        clock := db.clock + 1 } (normalizeEmail email2) =
        some ⟨userId1, normalizeEmail email1, name1.trim, 0, db.clock⟩ := by
      unfold getUserByEmail
      rw [heq, List.find?_append, List.find?_eq_none.mpr hmail]
      simp [List.find?]
    simp only [createAccount, hfound]

/-- Witness for C6: opening `" A@X.com "` then `"a@x.com"` on the empty
store. -/
theorem C6_duplicate_email_witness :
    ∃ r db1, createAccount emptyDB " A@X.com " "Alice" "id1" = (.ok r, db1) ∧
      r.balance = 0 ∧
      db1.users = emptyDB.users ++
        [⟨"id1", normalizeEmail " A@X.com ", "Alice".trim, 0, emptyDB.clock⟩] ∧
      createAccount db1 "a@x.com" "Bob" "id2" = (.error .emailConflict, db1) :=
  C6_duplicate_email emptyDB " A@X.com " "Alice" "id1" "a@x.com" "Bob" "id2"
    (by with_unfolding_all decide) (by intro u hu; simp [emptyDB] at hu)
    (by with_unfolding_all decide)

/-! ## Claim C7 -/

/-- C7: for an absent account id, `getUserTransactions` fails with the
not-found error (and returns no transactions); for an existing account it
returns exactly the transactions of that account (as history items), ordered
newest first (descending `createdAt`). -/
theorem C7_history_newest_first (db : DB) (userId : String) :
    (getUserById db userId = none →
      getUserTransactions db userId = .error .userNotFound) ∧
    (∀ u, getUserById db userId = some u →
      ∃ items, getUserTransactions db userId = .ok items ∧
        items.Pairwise (fun x y => y.createdAt ≤ x.createdAt) ∧
        items.Perm ((db.transactions.filter fun t => t.user_id == userId).map
          toHistoryItem)) := by
  constructor
  · intro hu
    simp [getUserTransactions, hu]
  · intro u hu
    refine ⟨(getUserTransactionsStmt db userId).map toHistoryItem,
      by simp [getUserTransactions, hu], ?_, ?_⟩
    · have hs : List.Pairwise newestFirst (getUserTransactionsStmt db userId) :=
        List.sorted_insertionSort newestFirst _
      exact hs.map toHistoryItem (fun a b hab => hab)
    · exact (List.perm_insertionSort newestFirst _).map toHistoryItem

/-- The store of the C7 witness: account `"u1"` with three transactions whose
timestamps arrive out of order in the table. -/
def C7winDB : DB :=
  ⟨[⟨"u1", "a@x.c", "A", 6, 0⟩],
    [⟨"t1", "u1", "topup", 5, 5, "k1", 1⟩,
     ⟨"t3", "u1", "topup", 1, 6, "k3", 5⟩,
     ⟨"t2", "u1", "charge", 2, 3, "k2", 3⟩,
     ⟨"tX", "uOther", "topup", 9, 9, "kX", 4⟩], 6⟩

/-- Witness for C7: the absent id errors; the present id yields a sorted
permutation of its own rows. -/
theorem C7_history_newest_first_witness :
    (getUserTransactions C7winDB "ghost" = .error .userNotFound) ∧
    ∃ items, getUserTransactions C7winDB "u1" = .ok items ∧
      items.Pairwise (fun x y => y.createdAt ≤ x.createdAt) ∧
      items.Perm ((C7winDB.transactions.filter fun t => t.user_id == "u1").map
        toHistoryItem) :=
  ⟨(C7_history_newest_first C7winDB "ghost").1 (by with_unfolding_all decide),
    (C7_history_newest_first C7winDB "u1").2 ⟨"u1", "a@x.c", "A", 6, 0⟩
      (by with_unfolding_all decide)⟩

/-! ## Claim C8 -/

theorem map_fst_set_self {α β : Type} (l : List (α × β)) (i : Nat) (h : i < l.length)
    (b : β) : (l.set i ((l.get ⟨i, h⟩).1, b)).map Prod.fst = l.map Prod.fst := by
  induction l generalizing i with
  | nil => rfl
  | cons hd tl ih =>
    cases i with
    | zero => rfl
    | succ n =>
      show hd.1 :: (tl.set n ((tl.get ⟨n, _⟩).1, b)).map Prod.fst = hd.1 :: tl.map Prod.fst
      rw [ih n (Nat.lt_of_succ_lt_succ h)]

theorem commitBatch_not_ok_of_dup {db : DB} {userId : String} {nb : ℚ} {t : Transaction}
    (t0 : Transaction) (h0 : t0 ∈ db.transactions)
    (hk : t0.idempotency_key = t.idempotency_key) (db2 : DB) :
    commitBatch db userId nb t ≠ .ok db2 := by
  unfold commitBatch
  split_ifs with h1 h2 h3
  · exact fun h => Except.noConfusion h
  · exact fun h => Except.noConfusion h
  · exact fun h => Except.noConfusion h
  · exact absurd (List.any_eq_true.mpr ⟨t0, h0, by simp [hk]⟩) h3

theorem topUpStep_db_eq_or_commit {userId idempotencyKey : String} {amount : ℚ}
    {txId : String} {db db2 : DB} {ph ph2 : Phase}
    (h : topUpStep userId idempotencyKey amount txId db ph = some (db2, ph2)) :
    db2 = db ∨ ∃ bal, ph = .gotUser bal ∧
      commitBatch db userId
          (formatCurrency (formatCurrency bal + formatCurrency amount))
          ⟨txId, userId, "topup", formatCurrency amount,
            formatCurrency (formatCurrency bal + formatCurrency amount),
            idempotencyKey, 0⟩ = .ok db2 := by
  cases ph with
  | start =>
    rcases hk : getTransactionByIdempotencyKey db idempotencyKey with _ | t <;>
      simp only [topUpStep, hk, Option.some.injEq, Prod.mk.injEq] at h <;>
      exact .inl h.1.symm
  | foundDup t =>
    rcases hu : getUserById db userId with _ | u <;>
      simp only [topUpStep, hu, Option.some.injEq, Prod.mk.injEq] at h <;>
      exact .inl h.1.symm
  | probed =>
    rcases hu : getUserById db userId with _ | u <;>
      simp only [topUpStep, hu, Option.some.injEq, Prod.mk.injEq] at h <;>
      exact .inl h.1.symm
  | gotUser bal =>
    rcases hc : commitBatch db userId
        (formatCurrency (formatCurrency bal + formatCurrency amount))
        ⟨txId, userId, "topup", formatCurrency amount,
          formatCurrency (formatCurrency bal + formatCurrency amount), idempotencyKey, 0⟩
      with e | db3
    · rcases commitBatch_error_cases hc with rfl | rfl <;>
        simp only [topUpStep, hc, Option.some.injEq, Prod.mk.injEq] at h <;>
        exact .inl h.1.symm
    · simp only [topUpStep, hc, Option.some.injEq, Prod.mk.injEq] at h
      exact .inr ⟨bal, rfl, h.1 ▸ hc⟩
  | recovering =>
    simp only [topUpStep, Option.some.injEq, Prod.mk.injEq] at h
    exact .inl h.1.symm
  | done r0 => exact absurd h (by simp [topUpStep])

/-- The inductive invariant of the concurrent-duplicate scenario: the call
ids never change, and the system is either still in the pre-commit phase
(store untouched, every call at `start`/`probed`, or holding the initial
balance it read) or exactly one commit has happened (one new transaction row
carrying the shared key, the account balance advanced by exactly one
application of the amount). -/
def CInv (db0 : DB) (userId idempotencyKey : String) (amount : ℚ)
    (txIds : List String) (u0 : User) (cfg : CConfig) : Prop :=
  cfg.ops.map Prod.fst = txIds ∧
  ((cfg.db = db0 ∧ ∀ p ∈ cfg.ops,
      p.2 = Phase.start ∨ p.2 = Phase.probed ∨ p.2 = Phase.gotUser u0.balance) ∨
    (∃ tnew : Transaction, tnew.idempotency_key = idempotencyKey ∧
      cfg.db = { db0 with
        users := updateBalance db0.users userId
          (formatCurrency (formatCurrency u0.balance + formatCurrency amount)),
        transactions := db0.transactions ++ [tnew],
        clock := db0.clock + 1 }))

set_option maxHeartbeats 1000000 in
theorem cinv_step {db0 : DB} {userId idempotencyKey : String} {amount : ℚ}
    {txIds : List String} {u0 : User}
    (H1 : getUserById db0 userId = some u0) (Hb : 0 ≤ u0.balance)
    (H2 : getTransactionByIdempotencyKey db0 idempotencyKey = none)
    (H3 : ∀ t ∈ db0.transactions, t.id ∉ txIds)
    (Hv : validateAmount (.num amount) = true)
    {cfg cfg2 : CConfig}
    (hstep : CStep userId amount idempotencyKey cfg cfg2)
    (hinv : CInv db0 userId idempotencyKey amount txIds u0 cfg) :
    CInv db0 userId idempotencyKey amount txIds u0 cfg2 := by
  obtain ⟨i, hi, db2, ph2, heq, rfl⟩ := hstep
  obtain ⟨hmap, hcase⟩ := hinv
  refine ⟨by rw [map_fst_set_self cfg.ops i hi ph2]; exact hmap, ?_⟩
  rcases hcase with ⟨hdb, hph⟩ | ⟨tnew, hkeynew, hdb⟩
  · -- pre-commit phase
    rw [hdb] at heq
    rcases hph (cfg.ops.get ⟨i, hi⟩) (List.get_mem cfg.ops i hi) with hp | hp | hp
    · rw [hp] at heq
      simp only [topUpStep, H2, Option.some.injEq, Prod.mk.injEq] at heq
      obtain ⟨rfl, rfl⟩ := heq
      refine .inl ⟨rfl, ?_⟩
      intro p hp2
      rcases List.mem_or_eq_of_mem_set hp2 with h | rfl
      · exact hph p h
      · exact .inr (.inl rfl)
    · rw [hp] at heq
      simp only [topUpStep, H1, Option.some.injEq, Prod.mk.injEq] at heq
      obtain ⟨rfl, rfl⟩ := heq
      refine .inl ⟨rfl, ?_⟩
      intro p hp2
      rcases List.mem_or_eq_of_mem_set hp2 with h | rfl
      · exact hph p h
      · exact .inr (.inr rfl)
    · rw [hp] at heq
      have hfa : 0 < formatCurrency amount := by
        have := validateAmount_pos Hv
        rwa [JSNum.val_num] at this
      have hcb : 0 ≤ formatCurrency u0.balance := formatCurrency_nonneg Hb
      have hnb : 0 ≤ formatCurrency (formatCurrency u0.balance + formatCurrency amount) :=
        formatCurrency_nonneg (add_nonneg hcb hfa.le)
      have htid : (cfg.ops.get ⟨i, hi⟩).1 ∈ txIds := by
        rw [← hmap]
        exact List.mem_map_of_mem Prod.fst (List.get_mem cfg.ops i hi)
      have hkey2 : ∀ t0 ∈ db0.transactions, ¬ t0.idempotency_key = idempotencyKey := by
        intro t0 h0
        have := List.find?_eq_none.mp H2 t0 h0
        simpa using this
      have hid2 : ∀ t0 ∈ db0.transactions, ¬ t0.id = (cfg.ops.get ⟨i, hi⟩).1 :=
        fun t0 h0 h => (H3 t0 h0) (h ▸ htid)
      have hcommit := @commitBatch_fresh_ok db0 userId
        (formatCurrency (formatCurrency u0.balance + formatCurrency amount))
        ⟨(cfg.ops.get ⟨i, hi⟩).1, userId, "topup", formatCurrency amount,
          formatCurrency (formatCurrency u0.balance + formatCurrency amount),
          idempotencyKey, 0⟩
        hnb (Or.inl rfl) hfa hnb hkey2 hid2
      simp only [topUpStep, hcommit, Option.some.injEq, Prod.mk.injEq] at heq
      obtain ⟨rfl, rfl⟩ := heq
      exact .inr ⟨⟨(cfg.ops.get ⟨i, hi⟩).1, userId, "topup", formatCurrency amount,
        formatCurrency (formatCurrency u0.balance + formatCurrency amount),
        idempotencyKey, db0.clock⟩, rfl, rfl⟩
  · -- post-commit phase: no further mutation is possible
    refine .inr ⟨tnew, hkeynew, ?_⟩
    rcases topUpStep_db_eq_or_commit heq with rfl | ⟨bal, _, hc⟩
    · exact hdb
    · exact absurd hc (by
        refine commitBatch_not_ok_of_dup tnew ?_ hkeynew db2
        rw [hdb]
        exact List.mem_append.mpr (.inr (List.mem_singleton.mpr rfl)))

theorem cinv_init (db0 : DB) (userId idempotencyKey : String) (amount : ℚ)
    (txIds : List String) (u0 : User) :
    CInv db0 userId idempotencyKey amount txIds u0 (initCConfig db0 txIds) := by
  refine ⟨?_, .inl ⟨rfl, ?_⟩⟩
  · show (txIds.map fun tid => (tid, Phase.start)).map Prod.fst = txIds
    induction txIds with
    | nil => rfl
    | cons a t ih => simpa using ih
  · intro p hp
    simp only [initCConfig, List.mem_map] at hp
    obtain ⟨tid, _, rfl⟩ := hp
    exact .inl rfl

theorem cinv_reachable {db0 : DB} {userId idempotencyKey : String} {amount : ℚ}
    {txIds : List String} {u0 : User}
    (H1 : getUserById db0 userId = some u0) (Hb : 0 ≤ u0.balance)
    (H2 : getTransactionByIdempotencyKey db0 idempotencyKey = none)
    (H3 : ∀ t ∈ db0.transactions, t.id ∉ txIds)
    (Hv : validateAmount (.num amount) = true)
    {cfg : CConfig}
    (hreach : CReachable userId amount idempotencyKey (initCConfig db0 txIds) cfg) :
    CInv db0 userId idempotencyKey amount txIds u0 cfg := by
  induction hreach with
  | refl => exact cinv_init db0 userId idempotencyKey amount txIds u0
  | tail hsteps hstep ih => exact cinv_step H1 Hb H2 H3 Hv hstep ih

/-- C8: `N ≥ 1` concurrent `topUp` calls sharing the same `(accountId,
amount, idempotencyKey)` (fresh, pairwise-arbitrary `generateId` outputs),
interleaved in any order by the scheduler: once every call has returned,
exactly one transaction row carrying that key has been persisted, and the
account balance reflects exactly one application of the amount. -/
theorem C8_concurrent_single_effect (db0 : DB) (userId idempotencyKey : String)
    (amount : ℚ) (txIds : List String) (u0 : User)
    (H1 : getUserById db0 userId = some u0) (Hb : 0 ≤ u0.balance)
    (H2 : getTransactionByIdempotencyKey db0 idempotencyKey = none)
    (H3 : ∀ t ∈ db0.transactions, t.id ∉ txIds)
    (Hv : validateAmount (.num amount) = true)
    (hne : txIds ≠ [])
    {cfg : CConfig}
    (hreach : CReachable userId amount idempotencyKey (initCConfig db0 txIds) cfg)
    (hdone : ∀ p ∈ cfg.ops, p.2.isDone = true) :
    countKey cfg.db idempotencyKey = 1 ∧
    getUserById cfg.db userId = some { u0 with
      balance := formatCurrency (formatCurrency u0.balance + formatCurrency amount) } := by
  obtain ⟨hmap, hcase⟩ := cinv_reachable H1 Hb H2 H3 Hv hreach
  rcases hcase with ⟨-, hph⟩ | ⟨tnew, hkeynew, hdb⟩
  · -- impossible: with at least one call, not every call can be undone here
    exfalso
    have hops : cfg.ops ≠ [] := by
      intro h
      rw [h] at hmap
      exact hne hmap.symm
    obtain ⟨p, hp⟩ := List.exists_mem_of_ne_nil cfg.ops hops
    have hd := hdone p hp
    rcases hph p hp with h | h | h <;> rw [h] at hd <;>
      simp [Phase.isDone] at hd
  · constructor
    · unfold countKey
      rw [hdb]
      show (List.filter _ (db0.transactions ++ [tnew])).length = 1
      rw [List.filter_append]
      have h0 : db0.transactions.filter
          (fun t => t.idempotency_key == idempotencyKey) = [] := by
        rw [List.filter_eq_nil_iff]
        intro t ht
        have := List.find?_eq_none.mp H2 t ht
        simpa using this
      rw [h0]
      simp [List.filter, hkeynew]
    · rw [hdb]
      show List.find? _ (updateBalance db0.users userId _) = _
      rw [find?_updateBalance]
      unfold getUserById at H1
      rw [H1]
      rfl

/-- The store of the C8 witness: account `"u1"` with balance 5, no
transactions. -/
def C8winDB : DB := ⟨[⟨"u1", "a@x.c", "A", 5, 0⟩], [], 0⟩

/-- C8 witness, configuration after the probe step. -/
def C8cfg1 : CConfig := ⟨C8winDB, [("t1", Phase.probed)]⟩

/-- C8 witness, configuration after the account load. -/
def C8cfg2 : CConfig := ⟨C8winDB, [("t1", Phase.gotUser 5)]⟩

/-- C8 witness, final configuration after the commit. -/
def C8cfg3 : CConfig :=
  ⟨⟨[⟨"u1", "a@x.c", "A", 7, 0⟩], [⟨"t1", "u1", "topup", 2, 7, "k1", 0⟩], 1⟩,
    [("t1", Phase.done (.ok ⟨true, "t1", 7, 2, false⟩))]⟩

/-- Witness for C8: one `topUp "u1" 2 "k1"` call run to completion through
the scheduler (probe, load, commit) ends with exactly one `"k1"` row and
balance 7. -/
theorem C8_concurrent_single_effect_witness :
    countKey C8cfg3.db "k1" = 1 ∧
    getUserById C8cfg3.db "u1" = some ⟨"u1", "a@x.c", "A",
      formatCurrency (formatCurrency 5 + formatCurrency 2), 0⟩ := by
  have s1 : CStep "u1" 2 "k1" (initCConfig C8winDB ["t1"]) C8cfg1 :=
    ⟨0, by with_unfolding_all decide, C8winDB, Phase.probed,
      by with_unfolding_all decide, by with_unfolding_all decide⟩
  have s2 : CStep "u1" 2 "k1" C8cfg1 C8cfg2 :=
    ⟨0, by with_unfolding_all decide, C8winDB, Phase.gotUser 5,
      by with_unfolding_all decide, by with_unfolding_all decide⟩
  have s3 : CStep "u1" 2 "k1" C8cfg2 C8cfg3 :=
    ⟨0, by with_unfolding_all decide, C8cfg3.db,
      Phase.done (.ok ⟨true, "t1", 7, 2, false⟩),
      by with_unfolding_all decide, by with_unfolding_all decide⟩
  have hreach : CReachable "u1" 2 "k1" (initCConfig C8winDB ["t1"]) C8cfg3 :=
    Relation.ReflTransGen.head s1 (Relation.ReflTransGen.head s2
      (Relation.ReflTransGen.head s3 Relation.ReflTransGen.refl))
  exact C8_concurrent_single_effect C8winDB "u1" "k1" 2 ["t1"]
    ⟨"u1", "a@x.c", "A", 5, 0⟩ (by with_unfolding_all decide)
    (by with_unfolding_all decide) (by with_unfolding_all decide)
    (by with_unfolding_all decide) (by with_unfolding_all decide)
    (by with_unfolding_all decide) hreach (by with_unfolding_all decide)

end Wallet
